import Mathlib

/-!
Verification of the transit/aspect core of an astrology package.

The development shallowly embeds the two Python modules of the core:

* transits.py : the aspect catalog (ASPECTS), circular orb distance
  (calculate_aspect_orb), retrograde detection (is_retrograde), the aspect
  matcher (find_aspects) and the two-phase exact-aspect-time solver
  (find_exact_aspect_time).
* houses.py : civil-datetime-to-Julian-Day conversion (compute_julian_day),
  zodiac sign decomposition (get_zodiac_sign) and the house batch pipeline
  (calculate_houses_for_positions).

Modelling conventions:
* Python floats are modelled as rationals.
* Python dicts that are only iterated or looked up are modelled as
  association lists in insertion order; dict keys are unique, which appears
  as Nodup hypotheses where it matters.
* Civil datetimes are modelled in the solver as integer minutes since an
  arbitrary epoch: the solver only ever adds timedeltas of whole hours and
  whole minutes to its inputs, so this is exact.
* The ephemeris provider (the swisseph library) is an external collaborator:
  functions that consume it are parametrised by it.  For the solver the
  composite current-time-to-transiting-longitude map (compute_julian_day
  followed by calculate_planetary_positions, projected at the queried
  planet) is one parameter, transit longitude as a function of civil time.
* Fallible operations (Python IndexError / KeyError) return Option.
-/

/-- One value of the ASPECTS table of transits.py: exact angle and orb
tolerance, both in degrees. -/
structure AspectData where
  angle : ℚ
  orb : ℚ
deriving DecidableEq

/-- The fixed aspect catalog of transits.py, in declaration order. -/
def ASPECTS : List (String × AspectData) :=
  [("conjunction", ⟨0, 8⟩),
   ("opposition", ⟨180, 8⟩),
   ("trine", ⟨120, 8⟩),
   ("square", ⟨90, 8⟩),
   ("sextile", ⟨60, 6⟩),
   ("quincunx", ⟨150, 3⟩),
   ("semisextile", ⟨30, 3⟩),
   ("semisquare", ⟨45, 2⟩),
   ("sesquisquare", ⟨135, 2⟩)]

/-- calculate_aspect_orb of transits.py: wrap the separation of the two
angles to the short way around the circle, then take the absolute deviation
from the aspect angle. -/
def calculate_aspect_orb (angle1 angle2 aspect_angle : ℚ) : ℚ :=
  let diff := |angle1 - angle2|
  let orb := min diff (360 - diff)
  |orb - aspect_angle|

/-- The two fields of a planetary-position record that the aspect matcher
reads: longitude and longitude_speed. -/
structure PlanetData where
  longitude : ℚ
  longitude_speed : ℚ
deriving DecidableEq

/-- is_retrograde of transits.py: strictly negative longitude speed. -/
def is_retrograde (planet_data : PlanetData) : Bool :=
  planet_data.longitude_speed < 0

/-- One element of the list built by find_aspects. -/
structure AspectMatch where
  planet1 : String
  planet2 : String
  aspect : String
  orb : ℚ
  exact_angle : ℚ
  planet1_retrograde : Bool
  planet2_retrograde : Bool
deriving DecidableEq

/-- The dictionary find_aspects appends for a qualifying combination. -/
def make_aspect_match (planet1 : String) (pos1 : PlanetData) (planet2 : String)
    (pos2 : PlanetData) (entry : String × AspectData) : AspectMatch :=
  { planet1 := planet1
    planet2 := planet2
    aspect := entry.1
    orb := calculate_aspect_orb pos1.longitude pos2.longitude entry.2.angle
    exact_angle := entry.2.angle
    planet1_retrograde := is_retrograde pos1
    planet2_retrograde := is_retrograde pos2 }

/-- The max_orb guard of find_aspects: true exactly when the optional
max_orb is present and the computed orb exceeds it (the continue branch). -/
def max_orb_excludes (max_orb : Option ℚ) (orb : ℚ) : Bool :=
  match max_orb with
  | some m => decide (orb > m)
  | none => false

/-- The body of the innermost loop of find_aspects for one catalog entry:
skip when max_orb excludes the orb, append a match when the orb is within
the catalog tolerance. -/
def aspect_entry (max_orb : Option ℚ) (planet1 : String) (pos1 : PlanetData)
    (planet2 : String) (pos2 : PlanetData) (entry : String × AspectData) :
    Option AspectMatch :=
  let orb := calculate_aspect_orb pos1.longitude pos2.longitude entry.2.angle
  if max_orb_excludes max_orb orb then none
  else if orb ≤ entry.2.orb then some (make_aspect_match planet1 pos1 planet2 pos2 entry)
  else none

/-- find_aspects of transits.py: three nested loops, outer over the first
position dict, middle over the second, inner over the catalog, appending
qualifying matches in that order. -/
def find_aspects (positions1 positions2 : List (String × PlanetData))
    (max_orb : Option ℚ) : List AspectMatch :=
  positions1.flatMap fun q1 =>
    positions2.flatMap fun q2 =>
      ASPECTS.filterMap (aspect_entry max_orb q1.1 q1.2 q2.1 q2.2)

/-- The inclusion test of the specification for one (body1, body2, aspect)
triple: orb within the catalog tolerance and not excluded by max_orb. -/
def aspect_passes (max_orb : Option ℚ) (pos1 pos2 : PlanetData)
    (entry : String × AspectData) : Bool :=
  let orb := calculate_aspect_orb pos1.longitude pos2.longitude entry.2.angle
  decide (orb ≤ entry.2.orb) && !(max_orb_excludes max_orb orb)

/-- The description of find_aspects in the specification, written from its words:
iterate the full cross product of the two position sets and the catalog in
nested order, keep exactly the combinations that pass the inclusion test,
and report them in iteration order. -/
def find_aspects_spec (positions1 positions2 : List (String × PlanetData))
    (max_orb : Option ℚ) : List AspectMatch :=
  ((positions1 ×ˢ (positions2 ×ˢ ASPECTS)).filter fun t =>
      aspect_passes max_orb t.1.2 t.2.1.2 t.2.2).map fun t =>
    make_aspect_match t.1.1 t.1.2 t.2.1.1 t.2.1.2 t.2.2

/-- The orb the solver measures at civil time t (in minutes): the orb
between the fixed natal longitude and the transiting longitude at t, for
the target aspect angle.  transit_lon is the composite of compute_julian_day
and the provider position computation for the transiting planet. -/
def transit_orb (transit_lon : ℤ → ℚ) (natal_lon aspect_angle : ℚ) (t : ℤ) : ℚ :=
  calculate_aspect_orb natal_lon (transit_lon t) aspect_angle

/-- The fine-phase loop of find_exact_aspect_time: walk from fine_start to
fine_end in 1-minute steps carrying the best (time, orb) seen so far, which
starts empty (best_time = None, best_orb = infinity) and is replaced only
when a strictly smaller orb appears. -/
def fine_search (transit_lon : ℤ → ℚ) (natal_lon aspect_angle : ℚ)
    (fine_end : ℤ) (fine_start : ℤ) (best : Option (ℤ × ℚ)) : Option (ℤ × ℚ) :=
  if h : fine_start ≤ fine_end then
    let orb := transit_orb transit_lon natal_lon aspect_angle fine_start
    let best2 : Option (ℤ × ℚ) :=
      match best with
      | none => some (fine_start, orb)
      | some (bt, bo) => if orb < bo then some (fine_start, orb) else some (bt, bo)
    fine_search transit_lon natal_lon aspect_angle fine_end (fine_start + 1) best2
  else best
termination_by (fine_end + 1 - fine_start).toNat
decreasing_by omega

/-- The coarse-phase loop of find_exact_aspect_time: walk from current_time
to end_time in 1-hour (60-minute) steps; at the first step whose orb is
strictly below 0.1 degrees, run the fine search over the surrounding
plus/minus 1 hour window and return its best time; if the window is
exhausted, return none. -/
def coarse_search (transit_lon : ℤ → ℚ) (natal_lon aspect_angle : ℚ)
    (end_time : ℤ) (current_time : ℤ) : Option ℤ :=
  if h : current_time ≤ end_time then
    if htr : transit_orb transit_lon natal_lon aspect_angle current_time < 1/10 then
      (fine_search transit_lon natal_lon aspect_angle (current_time + 60)
        (current_time - 60) none).map Prod.fst
    else
      coarse_search transit_lon natal_lon aspect_angle end_time (current_time + 60)
  else none
termination_by (end_time + 1 - current_time).toNat
decreasing_by omega

/-- find_exact_aspect_time of transits.py.  The aspect name is looked up in
the catalog first (a missing name raises KeyError in Python, modelled as
the outer none); then the two-phase search runs from start_time. -/
def find_exact_aspect_time (transit_lon : ℤ → ℚ) (natal_lon : ℚ)
    (aspect_name : String) (start_time end_time : ℤ) : Option (Option ℤ) :=
  (ASPECTS.lookup aspect_name).map fun aspect_data =>
    coarse_search transit_lon natal_lon aspect_data.angle end_time start_time

/-- The fixed ordered sign catalog of get_zodiac_sign in houses.py. -/
def signs : List String :=
  ["Aries", "Taurus", "Gemini", "Cancer",
   "Leo", "Virgo", "Libra", "Scorpio",
   "Sagittarius", "Capricorn", "Aquarius", "Pisces"]

/-- Python int() applied to a rational: truncation toward zero. -/
def pyTrunc (q : ℚ) : ℤ :=
  if 0 ≤ q then ⌊q⌋ else -⌊-q⌋

/-- Python list subscription: negative indices count from the end, an index
out of range raises IndexError (modelled as none). -/
def pyListIndex {α : Type} (l : List α) (i : ℤ) : Option α :=
  let j := if i < 0 then i + l.length else i
  if 0 ≤ j then l.get? j.toNat else none

/-- get_zodiac_sign of houses.py: sign_num = int(degree / 30) (truncation),
degree_in_sign = degree % 30 (Python modulo with positive divisor), then
subscript the sign list with sign_num. -/
def get_zodiac_sign (degree : ℚ) : Option (String × ℚ) :=
  let sign_num := pyTrunc (degree / 30)
  let degree_in_sign := degree - 30 * ⌊degree / 30⌋
  (pyListIndex signs sign_num).map fun s => (s, degree_in_sign)

/-- The fields of a Python datetime that compute_julian_day can read.  The
components are unconstrained here; the Python datetime constructor is what
enforces their ranges, before any value reaches compute_julian_day. -/
structure PyDatetime where
  year : ℤ
  month : ℤ
  day : ℤ
  hour : ℤ
  minute : ℤ
  second : ℤ
  microsecond : ℤ
deriving DecidableEq

/-- compute_julian_day of houses.py, parametrised by the provider
civil-to-Julian-Day conversion (swe.julday): utc_hour = hour - timezone,
then one provider call on (year, month, day, utc_hour + minute/60).  No
component is examined or validated and no other field is read. -/
def compute_julian_day (julday : ℤ → ℤ → ℤ → ℚ → ℚ)
    (birth_datetime : PyDatetime) (timezone : ℚ) : ℚ :=
  let utc_hour : ℚ := (birth_datetime.hour : ℚ) - timezone
  julday birth_datetime.year birth_datetime.month birth_datetime.day
    (utc_hour + (birth_datetime.minute : ℚ) / 60)

/-- Modelled from the spec: the to_julian_day of the specification, which fails
with InvalidDate for calendar components outside the supported conversion
range (taken as the civil-datetime component ranges: year 1..9999, month
1..12, day 1..31, hour 0..23, minute 0..59) and otherwise applies the
provider conversion to (year, month, day, hour - offset + minute/60).
The compute_julian_day of the repository is compared against this. -/
def to_julian_day_spec (julday : ℤ → ℤ → ℤ → ℚ → ℚ)
    (dt : PyDatetime) (utc_offset : ℚ) : Except String ℚ :=
  if 1 ≤ dt.year ∧ dt.year ≤ 9999 ∧ 1 ≤ dt.month ∧ dt.month ≤ 12 ∧
      1 ≤ dt.day ∧ dt.day ≤ 31 ∧ 0 ≤ dt.hour ∧ dt.hour ≤ 23 ∧
      0 ≤ dt.minute ∧ dt.minute ≤ 59 then
    Except.ok (julday dt.year dt.month dt.day
      ((dt.hour : ℚ) - utc_offset + (dt.minute : ℚ) / 60))
  else
    Except.error ("InvalidDate")

/-- The one field of a batch-pipeline entry that
calculate_houses_for_positions reads: the optional julian_day (pos.get
returns None when the key is absent). -/
structure PositionEntry where
  julian_day : Option ℚ
deriving DecidableEq

/-- The three components calculate_ascendant_and_houses returns and the
batch pipeline stores per entry. -/
structure HouseData where
  ascendant : ℚ
  house_cusps : List ℚ
  angles : List ℚ
deriving DecidableEq

/-- calculate_houses_for_positions of houses.py, parametrised by the
house computation (calculate_ascendant_and_houses at the fixed location,
a provider call): entries whose julian_day is absent are skipped with one
warning (the printed message, recorded here by name); the others get a
result rebuilt from the three fields of the house computation.  Results
and warnings keep iteration order. -/
def calculate_houses_for_positions (houses_at : ℚ → HouseData) :
    List (String × PositionEntry) → List (String × HouseData) × List String
  | [] => ([], [])
  | (name, pos) :: rest =>
    match pos.julian_day with
    | none =>
      let r := calculate_houses_for_positions houses_at rest
      (r.1, name :: r.2)
    | some jd =>
      let house_data := houses_at jd
      let r := calculate_houses_for_positions houses_at rest
      ((name, ⟨house_data.ascendant, house_data.house_cusps, house_data.angles⟩) :: r.1,
       r.2)

/-! ## Helper lemmas -/

/-- Indexing a list below its length with get? returns the getD value. -/
theorem list_get?_eq_getD {α : Type} (l : List α) (n : ℕ) (d : α)
    (h : n < l.length) : l.get? n = some (l.getD n d) := by
  rw [List.get?_eq_getElem?, List.getD_eq_getElem?_getD, List.getElem?_eq_getElem h]
  rfl

/-! ## Claim theorems -/

/-- Claim C9: calculate_aspect_orb is symmetric in its first two arguments:
for all angles a, b and every target angle t, the orb of (a, b) equals the
orb of (b, a). -/
theorem calculate_aspect_orb_symm_c9 :
    ∀ a b t : ℚ, calculate_aspect_orb a b t = calculate_aspect_orb b a t := by
  intro a b t
  unfold calculate_aspect_orb
  rw [abs_sub_comm a b]

/-- Claim C7: compute_julian_day equals the provider civil-to-Julian-Day
conversion applied to (year, month, day, hour - offset + minute/60), and the
seconds and microsecond components never affect the result. -/
theorem compute_julian_day_formula_c7 (julday : ℤ → ℤ → ℤ → ℚ → ℚ)
    (dt : PyDatetime) (tz : ℚ) :
    compute_julian_day julday dt tz =
      julday dt.year dt.month dt.day ((dt.hour : ℚ) - tz + (dt.minute : ℚ) / 60) ∧
    ∀ s2 us2 : ℤ,
      compute_julian_day julday { dt with second := s2, microsecond := us2 } tz =
        compute_julian_day julday dt tz :=
  ⟨rfl, fun _ _ => rfl⟩

/-- Claim C6 counterexample: at a datetime whose month component (13) is
outside the supported conversion range, the to_julian_day of the spec fails with
InvalidDate, but the compute_julian_day of the code does not fail: it returns
the provider value (here the constant-zero provider gives 0). -/
theorem compute_julian_day_c6_counterexample :
    compute_julian_day (fun _ _ _ _ => 0) ⟨2025, 13, 1, 0, 0, 0, 0⟩ 0 = 0 ∧
    to_julian_day_spec (fun _ _ _ _ => 0) ⟨2025, 13, 1, 0, 0, 0, 0⟩ 0 =
      Except.error ("InvalidDate") := by
  exact ⟨rfl, by rw [to_julian_day_spec, if_neg (by decide)]⟩

/-- Claim C6 amended: compute_julian_day performs no range validation and
never fails: even on an input that the to_julian_day of the spec rejects as
InvalidDate, it returns the provider conversion applied to the unchecked
components. -/
theorem compute_julian_day_total_c6 (julday : ℤ → ℤ → ℤ → ℚ → ℚ)
    (dt : PyDatetime) (tz : ℚ)
    (hrej : to_julian_day_spec julday dt tz = Except.error ("InvalidDate")) :
    compute_julian_day julday dt tz =
      julday dt.year dt.month dt.day (((dt.hour : ℚ) - tz) + (dt.minute : ℚ) / 60) :=
  rfl

/-- Witness for the amended C6 theorem at month 0, a concrete out-of-range
input. -/
theorem compute_julian_day_total_c6_witness :
    compute_julian_day (fun _ _ _ _ => 1) ⟨2024, 0, 5, 0, 30, 0, 0⟩ 0 =
      (fun _ _ _ _ => (1 : ℚ)) 2024 0 5 (((0 : ℚ) - 0) + (30 : ℚ) / 60) := by
  refine compute_julian_day_total_c6 (fun _ _ _ _ => 1) ⟨2024, 0, 5, 0, 30, 0, 0⟩ 0 ?_
  rw [to_julian_day_spec, if_neg (by decide)]

/-- Claim C8: calculate_houses_for_positions skips exactly the entries whose
julian_day is absent, recording one warning per skipped entry, and returns a
house record for every entry that has a julian_day, in order; in particular
on 3 entries where exactly the middle one lacks julian_day it returns
results for the other 2 and one warning, without aborting. -/
theorem calculate_houses_for_positions_c8 (houses_at : ℚ → HouseData) :
    (∀ entries : List (String × PositionEntry),
      (calculate_houses_for_positions houses_at entries).1 =
        entries.filterMap (fun ent => ent.2.julian_day.map fun jd => (ent.1, houses_at jd)) ∧
      (calculate_houses_for_positions houses_at entries).2 =
        (entries.filter fun ent => ent.2.julian_day.isNone).map Prod.fst) ∧
    ∀ (n1 n2 n3 : String) (jd1 jd3 : ℚ),
      calculate_houses_for_positions houses_at
          [(n1, ⟨some jd1⟩), (n2, ⟨none⟩), (n3, ⟨some jd3⟩)] =
        ([(n1, houses_at jd1), (n3, houses_at jd3)], [n2]) := by
  constructor
  · intro entries
    induction entries with
    | nil => exact ⟨rfl, rfl⟩
    | cons e rest ih =>
      obtain ⟨name, pos⟩ := e
      cases h : pos.julian_day with
      | none =>
        simp [calculate_houses_for_positions, h, ih.1, ih.2, List.filter_cons]
      | some jd =>
        simp [calculate_houses_for_positions, h, ih.1, ih.2, List.filter_cons]
  · intro n1 n2 n3 jd1 jd3
    rfl

/-- Claim C5 counterexample: at longitude 360 the claim demands the sign at
index floor(360/30) mod 12 = 0, which exists in the catalog (Aries), but
get_zodiac_sign computes sign_num = 12 and the list subscription fails
(IndexError), returning no sign at all. -/
theorem get_zodiac_sign_c5_counterexample :
    get_zodiac_sign 360 = none ∧
    ⌊(360 : ℚ) / 30⌋ % 12 = 0 ∧ signs.get? 0 = some ("Aries") := by
  refine ⟨?_, by norm_num, rfl⟩
  rw [get_zodiac_sign]
  have h1 : pyTrunc ((360 : ℚ) / 30) = 12 := by
    rw [pyTrunc, if_pos (by norm_num)]
    norm_num
  rw [h1]
  rfl

/-- Claim C5 amended: for every longitude L in [0, 360), get_zodiac_sign
returns the sign at index floor(L/30) of the catalog together with
degree-within-sign L mod 30 in [0, 30); on that range the index already
equals floor(L/30) mod 12.  (Outside [0, 360) the code can fail or disagree
with the floor-mod-12 rule, as the counterexample at 360 shows.) -/
theorem get_zodiac_sign_in_range_c5 (L : ℚ) (h0 : 0 ≤ L) (h1 : L < 360) :
    get_zodiac_sign L = some (signs.getD (⌊L / 30⌋).toNat (""), L - 30 * ⌊L / 30⌋) ∧
    0 ≤ L - 30 * ⌊L / 30⌋ ∧ L - 30 * ⌊L / 30⌋ < 30 ∧
    0 ≤ ⌊L / 30⌋ ∧ ⌊L / 30⌋ < 12 ∧ ⌊L / 30⌋ % 12 = ⌊L / 30⌋ := by
  have hq0 : 0 ≤ L / 30 := div_nonneg h0 (by norm_num)
  have hqlt : L / 30 < 12 := by
    rw [div_lt_iff₀ (by norm_num : (0 : ℚ) < 30)]
    linarith
  have hf0 : 0 ≤ ⌊L / 30⌋ := Int.floor_nonneg.mpr hq0
  have hf12 : ⌊L / 30⌋ < 12 := Int.floor_lt.mpr (by exact_mod_cast hqlt)
  have hfle : (⌊L / 30⌋ : ℚ) ≤ L / 30 := Int.floor_le _
  have hflt : L / 30 < (⌊L / 30⌋ : ℚ) + 1 := Int.lt_floor_add_one _
  have hd0 : 0 ≤ L - 30 * ⌊L / 30⌋ := by
    rw [le_div_iff₀ (by norm_num : (0 : ℚ) < 30)] at hfle
    linarith
  have hd30 : L - 30 * ⌊L / 30⌋ < 30 := by
    rw [div_lt_iff₀ (by norm_num : (0 : ℚ) < 30)] at hflt
    linarith
  refine ⟨?_, hd0, hd30, hf0, hf12, by omega⟩
  have htr : pyTrunc (L / 30) = ⌊L / 30⌋ := by rw [pyTrunc, if_pos hq0]
  have hcond : ¬ (⌊L / 30⌋ < 0) := not_lt.mpr hf0
  have hn : (⌊L / 30⌋).toNat < signs.length := by
    simp only [signs, List.length]
    omega
  simp only [get_zodiac_sign]
  rw [htr]
  simp only [pyListIndex]
  rw [if_neg hcond, if_pos hf0]
  rw [list_get?_eq_getD signs (⌊L / 30⌋).toNat ("") hn]
  rfl

/-- Witness for the amended C5 theorem at longitude 45 (Taurus 15). -/
theorem get_zodiac_sign_in_range_c5_witness :
    get_zodiac_sign 45 =
      some (signs.getD (⌊(45 : ℚ) / 30⌋).toNat (""),
        (45 : ℚ) - 30 * (⌊(45 : ℚ) / 30⌋ : ℤ)) ∧
    0 ≤ (45 : ℚ) - 30 * (⌊(45 : ℚ) / 30⌋ : ℤ) ∧
    (45 : ℚ) - 30 * (⌊(45 : ℚ) / 30⌋ : ℤ) < 30 ∧
    0 ≤ ⌊(45 : ℚ) / 30⌋ ∧ ⌊(45 : ℚ) / 30⌋ < 12 ∧
    ⌊(45 : ℚ) / 30⌋ % 12 = ⌊(45 : ℚ) / 30⌋ :=
  get_zodiac_sign_in_range_c5 45 (by norm_num) (by norm_num)

/-- aspect_entry in guard form: it produces exactly the match dictionary
when the inclusion test of the specification passes, and nothing otherwise. -/
theorem aspect_entry_eq (mo : Option ℚ) (p1 : String) (pos1 : PlanetData)
    (p2 : String) (pos2 : PlanetData) (entry : String × AspectData) :
    aspect_entry mo p1 pos1 p2 pos2 entry =
      if aspect_passes mo pos1 pos2 entry then
        some (make_aspect_match p1 pos1 p2 pos2 entry)
      else none := by
  simp only [aspect_entry, aspect_passes]
  by_cases hex : max_orb_excludes mo (calculate_aspect_orb pos1.longitude pos2.longitude entry.2.angle)
  · simp [hex]
  · by_cases hle : calculate_aspect_orb pos1.longitude pos2.longitude entry.2.angle ≤ entry.2.orb
    · simp [hex, hle]
    · simp [hex, hle]

/-- filterMap of a guarded function is filter followed by map. -/
theorem filterMap_guard {α β : Type} (p : α → Bool) (g : α → β) :
    ∀ l : List α,
      l.filterMap (fun x => if p x then some (g x) else none) = (l.filter p).map g := by
  intro l
  induction l with
  | nil => rfl
  | cons x l ih =>
    rw [List.filterMap_cons, List.filter_cons]
    by_cases h : p x
    · simp [h, ih]
    · simp [h, ih]

/-- The inner two loops of find_aspects for a fixed first-set entry agree
with the filtered cross product of the second set and the catalog. -/
theorem find_aspects_row (mo : Option ℚ) (q1 : String × PlanetData) :
    ∀ b : List (String × PlanetData),
      (b.flatMap fun q2 => ASPECTS.filterMap (aspect_entry mo q1.1 q1.2 q2.1 q2.2)) =
        ((b ×ˢ ASPECTS).filter fun t => aspect_passes mo q1.2 t.1.2 t.2).map
          fun t => make_aspect_match q1.1 q1.2 t.1.1 t.1.2 t.2 := by
  intro b
  induction b with
  | nil => rfl
  | cons q2 b ih =>
    rw [List.flatMap_cons, List.product_cons, List.filter_append, List.map_append, ih]
    congr 1
    rw [List.filter_map, List.map_map]
    rw [show aspect_entry mo q1.1 q1.2 q2.1 q2.2 =
        fun e => if aspect_passes mo q1.2 q2.2 e then
          some (make_aspect_match q1.1 q1.2 q2.1 q2.2 e)
        else none from funext fun e => aspect_entry_eq mo q1.1 q1.2 q2.1 q2.2 e]
    exact filterMap_guard _ _ ASPECTS

/-- max_orb never excludes exactly when max_orb is absent or the orb is
within it. -/
theorem max_orb_excludes_false_iff (mo : Option ℚ) (orb : ℚ) :
    max_orb_excludes mo orb = false ↔ ∀ v, mo = some v → orb ≤ v := by
  cases mo with
  | none => simp [max_orb_excludes]
  | some v => simp [max_orb_excludes, not_lt]

/-- Claim C2: find_aspects iterates set_a, then set_b, then the catalog, in
exactly that nested order, and its output (in iteration order) contains a
match for a (body1, body2, aspect) triple iff the orb of the two longitudes
is within the catalog orb of the aspect and within max_orb when that is given. -/
theorem find_aspects_c2 (a b : List (String × PlanetData)) (mo : Option ℚ) :
    find_aspects a b mo = find_aspects_spec a b mo ∧
    ∀ p1 p2 nm : String,
      (∃ m ∈ find_aspects a b mo, m.planet1 = p1 ∧ m.planet2 = p2 ∧ m.aspect = nm) ↔
      ∃ pos1 pos2 ad, (p1, pos1) ∈ a ∧ (p2, pos2) ∈ b ∧ (nm, ad) ∈ ASPECTS ∧
        calculate_aspect_orb pos1.longitude pos2.longitude ad.angle ≤ ad.orb ∧
        ∀ v, mo = some v → calculate_aspect_orb pos1.longitude pos2.longitude ad.angle ≤ v := by
  constructor
  · induction a with
    | nil => rfl
    | cons q1 a ih =>
      rw [find_aspects, find_aspects_spec, List.flatMap_cons, List.product_cons,
        List.filter_append, List.map_append]
      rw [find_aspects, find_aspects_spec] at ih
      rw [← ih]
      congr 1
      rw [List.filter_map, List.map_map]
      rw [find_aspects_row mo q1 b]
      rfl
  · intro p1 p2 nm
    constructor
    · rintro ⟨m, hm, hp1, hp2, hnm⟩
      rw [find_aspects] at hm
      rw [List.mem_flatMap] at hm
      obtain ⟨q1, hq1, hm⟩ := hm
      rw [List.mem_flatMap] at hm
      obtain ⟨q2, hq2, hm⟩ := hm
      rw [List.mem_filterMap] at hm
      obtain ⟨entry, hentry, hae⟩ := hm
      rw [aspect_entry_eq] at hae
      by_cases hpass : aspect_passes mo q1.2 q2.2 entry
      · rw [if_pos hpass] at hae
        obtain rfl : make_aspect_match q1.1 q1.2 q2.1 q2.2 entry = m :=
          Option.some_injective _ hae
        simp only [make_aspect_match] at hp1 hp2 hnm
        refine ⟨q1.2, q2.2, entry.2, ?_, ?_, ?_, ?_, ?_⟩
        · rw [← hp1]
          exact hq1
        · rw [← hp2]
          exact hq2
        · rw [← hnm]
          exact hentry
        · simp only [aspect_passes, Bool.and_eq_true, decide_eq_true_eq] at hpass
          exact hpass.1
        · simp only [aspect_passes, Bool.and_eq_true, Bool.not_eq_true',
            max_orb_excludes_false_iff] at hpass
          exact hpass.2
      · rw [if_neg hpass] at hae
        exact absurd hae (Option.noConfusion)
    · rintro ⟨pos1, pos2, ad, h1, h2, h3, h4, h5⟩
      refine ⟨make_aspect_match p1 pos1 p2 pos2 (nm, ad), ?_, rfl, rfl, rfl⟩
      rw [find_aspects, List.mem_flatMap]
      refine ⟨(p1, pos1), h1, ?_⟩
      rw [List.mem_flatMap]
      refine ⟨(p2, pos2), h2, ?_⟩
      rw [List.mem_filterMap]
      refine ⟨(nm, ad), h3, ?_⟩
      rw [aspect_entry_eq, if_pos ?_]
      simp only [aspect_passes, Bool.and_eq_true, decide_eq_true_eq,
        Bool.not_eq_true', max_orb_excludes_false_iff]
      exact ⟨h4, h5⟩

/-- Invariant of the fine-phase loop: starting from a best candidate bt
strictly before the remaining range, the loop returns the earliest
minimum-orb sample among the candidate and the remaining 1-minute samples. -/
theorem fine_search_go (tl : ℤ → ℚ) (nl ang : ℚ) (fe : ℤ) :
    ∀ (n : ℕ) (cur bt : ℤ), (fe + 1 - cur).toNat = n → bt < cur →
    ∃ rt ro,
      fine_search tl nl ang fe cur (some (bt, transit_orb tl nl ang bt)) = some (rt, ro) ∧
      ro = transit_orb tl nl ang rt ∧
      (rt = bt ∨ (cur ≤ rt ∧ rt ≤ fe)) ∧
      ro ≤ transit_orb tl nl ang bt ∧
      (∀ u : ℤ, cur ≤ u → u ≤ fe → ro ≤ transit_orb tl nl ang u) ∧
      (transit_orb tl nl ang bt = ro → rt = bt) ∧
      (∀ u : ℤ, cur ≤ u → u ≤ fe → transit_orb tl nl ang u = ro → rt ≤ u) := by
  intro n
  induction n with
  | zero =>
    intro cur bt hn hb
    have hgt : ¬ (cur ≤ fe) := by omega
    rw [fine_search, dif_neg hgt]
    refine ⟨bt, transit_orb tl nl ang bt, rfl, rfl, Or.inl rfl, le_refl _, ?_,
      fun _ => rfl, ?_⟩
    · intro u h1 h2
      exact absurd h2 (by omega)
    · intro u h1 h2 _
      exact absurd h2 (by omega)
  | succ n ih =>
    intro cur bt hn hb
    have hc : cur ≤ fe := by omega
    by_cases hlt : transit_orb tl nl ang cur < transit_orb tl nl ang bt
    · have hstep : fine_search tl nl ang fe cur (some (bt, transit_orb tl nl ang bt)) =
          fine_search tl nl ang fe (cur + 1) (some (cur, transit_orb tl nl ang cur)) := by
        conv_lhs => rw [fine_search]
        rw [dif_pos hc]
        dsimp only
        rw [if_pos hlt]
      rw [hstep]
      obtain ⟨rt, ro, h1, h2, h3, h4, h5, h6, h7⟩ := ih (cur + 1) cur (by omega) (by omega)
      refine ⟨rt, ro, h1, h2, ?_, ?_, ?_, ?_, ?_⟩
      · rcases h3 with rfl | h3
        · exact Or.inr ⟨le_refl _, hc⟩
        · exact Or.inr ⟨by omega, h3.2⟩
      · exact le_trans h4 (le_of_lt hlt)
      · intro u hu1 hu2
        rcases eq_or_lt_of_le hu1 with rfl | hgt
        · exact h4
        · exact h5 u (by omega) hu2
      · intro he
        exact absurd he (by intro he2; rw [he2] at hlt; exact absurd h4 (not_le.mpr hlt))
      · intro u hu1 hu2 he
        rcases eq_or_lt_of_le hu1 with rfl | hgt
        · rw [h6 he]
        · exact h7 u (by omega) hu2 he
    · have hstep : fine_search tl nl ang fe cur (some (bt, transit_orb tl nl ang bt)) =
          fine_search tl nl ang fe (cur + 1) (some (bt, transit_orb tl nl ang bt)) := by
        conv_lhs => rw [fine_search]
        rw [dif_pos hc]
        dsimp only
        rw [if_neg hlt]
      rw [hstep]
      obtain ⟨rt, ro, h1, h2, h3, h4, h5, h6, h7⟩ := ih (cur + 1) bt (by omega) (by omega)
      have hble : transit_orb tl nl ang bt ≤ transit_orb tl nl ang cur := not_lt.mp hlt
      refine ⟨rt, ro, h1, h2, ?_, h4, ?_, h6, ?_⟩
      · rcases h3 with rfl | h3
        · exact Or.inl rfl
        · exact Or.inr ⟨by omega, h3.2⟩
      · intro u hu1 hu2
        rcases eq_or_lt_of_le hu1 with rfl | hgt
        · exact le_trans h4 hble
        · exact h5 u (by omega) hu2
      · intro u hu1 hu2 he
        rcases eq_or_lt_of_le hu1 with rfl | hgt
        · have hbe : transit_orb tl nl ang bt = ro := le_antisymm (by rw [← he]; exact hble) h4
          rw [h6 hbe]
          omega
        · exact h7 u (by omega) hu2 he

/-- The fine phase launched at trigger time T always produces a best sample:
the earliest minimum-orb 1-minute sample of the window [T-60, T+60]. -/
theorem fine_search_from_none (tl : ℤ → ℚ) (nl ang : ℚ) (T : ℤ) :
    ∃ rt ro,
      fine_search tl nl ang (T + 60) (T - 60) none = some (rt, ro) ∧
      ro = transit_orb tl nl ang rt ∧
      T - 60 ≤ rt ∧ rt ≤ T + 60 ∧
      (∀ u : ℤ, T - 60 ≤ u → u ≤ T + 60 → ro ≤ transit_orb tl nl ang u) ∧
      (∀ u : ℤ, T - 60 ≤ u → u ≤ T + 60 → transit_orb tl nl ang u = ro → rt ≤ u) := by
  have hc : T - 60 ≤ T + 60 := by omega
  have hstep : fine_search tl nl ang (T + 60) (T - 60) none =
      fine_search tl nl ang (T + 60) (T - 60 + 1)
        (some (T - 60, transit_orb tl nl ang (T - 60))) := by
    conv_lhs => rw [fine_search]
    rw [dif_pos hc]
  rw [hstep]
  obtain ⟨rt, ro, h1, h2, h3, h4, h5, h6, h7⟩ :=
    fine_search_go tl nl ang (T + 60) (T + 60 + 1 - (T - 60 + 1)).toNat (T - 60 + 1)
      (T - 60) rfl (by omega)
  refine ⟨rt, ro, h1, h2, ?_, ?_, ?_, ?_⟩
  · rcases h3 with rfl | h3
    · omega
    · omega
  · rcases h3 with rfl | h3
    · omega
    · exact h3.2
  · intro u hu1 hu2
    rcases eq_or_lt_of_le hu1 with rfl | hgt
    · exact h4
    · exact h5 u (by omega) hu2
  · intro u hu1 hu2 he
    rcases eq_or_lt_of_le hu1 with rfl | hgt
    · rw [h6 he]
    · exact h7 u (by omega) hu2 he

/-- The coarse phase at its first triggering sample c + 60k hands over to the
fine phase around that sample and returns its result, ignoring any later
coarse samples. -/
theorem coarse_search_at_first_trigger (tl : ℤ → ℚ) (nl ang : ℚ) (e : ℤ) :
    ∀ (k : ℕ) (c : ℤ), c + 60 * k ≤ e →
      transit_orb tl nl ang (c + 60 * k) < 1/10 →
      (∀ j : ℕ, j < k → ¬ (transit_orb tl nl ang (c + 60 * j) < 1/10)) →
      coarse_search tl nl ang e c =
        (fine_search tl nl ang (c + 60 * k + 60) (c + 60 * k - 60) none).map Prod.fst := by
  intro k
  induction k with
  | zero =>
    intro c hce htrig hfirst
    have hc0 : c + 60 * ((0 : ℕ) : ℤ) = c := by push_cast; ring
    rw [hc0] at hce htrig ⊢
    rw [coarse_search, dif_pos hce, dif_pos htrig]
  | succ k ih =>
    intro c hce htrig hfirst
    have hc : c ≤ e := by omega
    have h00 : c + 60 * ((0 : ℕ) : ℤ) = c := by push_cast; ring
    have h0 : ¬ (transit_orb tl nl ang c < 1/10) := by
      have h := hfirst 0 (by omega)
      rw [h00] at h
      exact h
    rw [coarse_search, dif_pos hc, dif_neg h0]
    have heq : c + 60 * ((k + 1 : ℕ) : ℤ) = c + 60 + 60 * (k : ℤ) := by push_cast; ring
    rw [heq] at hce htrig ⊢
    refine ih (c + 60) hce htrig ?_
    intro j hj
    have h := hfirst (j + 1) (by omega)
    have heqj : c + 60 * ((j + 1 : ℕ) : ℤ) = c + 60 + 60 * (j : ℤ) := by push_cast; ring
    rw [heqj] at h
    exact h

/-- If no coarse sample from c through e triggers, the coarse phase reaches
the end of the window and returns none. -/
theorem coarse_search_none (tl : ℤ → ℚ) (nl ang : ℚ) (e : ℤ) :
    ∀ (n : ℕ) (c : ℤ), (e + 1 - c).toNat = n →
      (∀ k : ℕ, c + 60 * k ≤ e → ¬ (transit_orb tl nl ang (c + 60 * k) < 1/10)) →
      coarse_search tl nl ang e c = none := by
  intro n
  induction n using Nat.strong_induction_on with
  | _ n ih =>
    intro c hn hall
    by_cases hc : c ≤ e
    · have h00 : c + 60 * ((0 : ℕ) : ℤ) = c := by push_cast; ring
      have h0 : ¬ (transit_orb tl nl ang c < 1/10) := by
        have h := hall 0 (by omega)
        rw [h00] at h
        exact h
      rw [coarse_search, dif_pos hc, dif_neg h0]
      refine ih (e + 1 - (c + 60)).toNat (by omega) (c + 60) rfl ?_
      intro j hj
      have h := hall (j + 1) (by omega)
      have heqj : c + 60 * ((j + 1 : ℕ) : ℤ) = c + 60 + 60 * (j : ℤ) := by push_cast; ring
      rw [heqj] at h
      exact h
    · rw [coarse_search, dif_neg hc]

/-- The coarse phase returns none exactly when no coarse sample from s
through e has orb strictly below 0.1 degrees. -/
theorem coarse_search_none_iff (tl : ℤ → ℚ) (nl ang : ℚ) (e s : ℤ) :
    coarse_search tl nl ang e s = none ↔
      ∀ k : ℕ, s + 60 * k ≤ e → ¬ (transit_orb tl nl ang (s + 60 * k) < 1/10) := by
  constructor
  · intro hnone
    by_contra hex
    push_neg at hex
    obtain ⟨k, hk, htrig⟩ := hex
    have hexists : ∃ k : ℕ, s + 60 * (k : ℤ) ≤ e ∧
        transit_orb tl nl ang (s + 60 * (k : ℤ)) < 1/10 := ⟨k, hk, htrig⟩
    have hk0 := Nat.find_spec hexists
    have hfirst : ∀ j : ℕ, j < Nat.find hexists →
        ¬ (transit_orb tl nl ang (s + 60 * (j : ℤ)) < 1/10) := by
      intro j hj habs
      have hle : s + 60 * (j : ℤ) ≤ e := by
        have := hk0.1
        omega
      exact Nat.find_min hexists hj ⟨hle, habs⟩
    have hco := coarse_search_at_first_trigger tl nl ang e (Nat.find hexists) s hk0.1 hk0.2 hfirst
    rw [hco] at hnone
    obtain ⟨rt, ro, h1, _⟩ := fine_search_from_none tl nl ang (s + 60 * (Nat.find hexists : ℤ))
    rw [h1] at hnone
    exact Option.noConfusion hnone
  · intro hall
    exact coarse_search_none tl nl ang e (e + 1 - s).toNat s rfl hall

/-- Claim C1: find_exact_aspect_time follows the exact two-phase structure:
it samples from start_time toward end_time in 1-hour steps; if no sample
has orb strictly below 0.1, the search reports no time; at the first sample
T whose orb is strictly below 0.1 it scans [T - 1h, T + 1h] at 1-minute
resolution and returns a timestamp of that window with the minimum orb
among all window samples, ignoring any later coarse steps. -/
theorem find_exact_aspect_time_two_phase_c1 (tl : ℤ → ℚ) (nl : ℚ)
    (aspect_name : String) (ad : AspectData) (s e : ℤ)
    (hname : ASPECTS.lookup aspect_name = some ad) :
    ((∀ k : ℕ, s + 60 * k ≤ e → ¬ (transit_orb tl nl ad.angle (s + 60 * k) < 1/10)) →
      find_exact_aspect_time tl nl aspect_name s e = some none) ∧
    ∀ k : ℕ, s + 60 * k ≤ e → transit_orb tl nl ad.angle (s + 60 * k) < 1/10 →
      (∀ j : ℕ, j < k → ¬ (transit_orb tl nl ad.angle (s + 60 * j) < 1/10)) →
      ∃ t : ℤ, find_exact_aspect_time tl nl aspect_name s e = some (some t) ∧
        s + 60 * k - 60 ≤ t ∧ t ≤ s + 60 * k + 60 ∧
        ∀ u : ℤ, s + 60 * k - 60 ≤ u → u ≤ s + 60 * k + 60 →
          transit_orb tl nl ad.angle t ≤ transit_orb tl nl ad.angle u := by
  have hfx : find_exact_aspect_time tl nl aspect_name s e =
      some (coarse_search tl nl ad.angle e s) := by
    rw [find_exact_aspect_time, hname]
    rfl
  constructor
  · intro hall
    rw [hfx, (coarse_search_none_iff tl nl ad.angle e s).mpr hall]
  · intro k hk htrig hfirst
    have hco := coarse_search_at_first_trigger tl nl ad.angle e k s hk htrig hfirst
    obtain ⟨rt, ro, h1, h2, h3, h4, h5, h6⟩ :=
      fine_search_from_none tl nl ad.angle (s + 60 * k)
    refine ⟨rt, ?_, h3, h4, ?_⟩
    · rw [hfx, hco, h1]
      rfl
    · intro u hu1 hu2
      rw [← h2]
      exact h5 u hu1 hu2

/-- Witness for C1 at a concrete constant ephemeris: natal longitude 0,
transiting longitude constantly 0, conjunction, window [0, 0]; the first
coarse sample triggers and the fine phase reports a minimum-orb time. -/
theorem find_exact_aspect_time_two_phase_c1_witness :
    ∃ t : ℤ, find_exact_aspect_time (fun _ => 0) 0 ("conjunction") 0 0 = some (some t) ∧
      (0 : ℤ) + 60 * ((0 : ℕ) : ℤ) - 60 ≤ t ∧ t ≤ (0 : ℤ) + 60 * ((0 : ℕ) : ℤ) + 60 ∧
      ∀ u : ℤ, (0 : ℤ) + 60 * ((0 : ℕ) : ℤ) - 60 ≤ u →
        u ≤ (0 : ℤ) + 60 * ((0 : ℕ) : ℤ) + 60 →
        transit_orb (fun _ => 0) 0 (AspectData.mk 0 8).angle t ≤
          transit_orb (fun _ => 0) 0 (AspectData.mk 0 8).angle u :=
  (find_exact_aspect_time_two_phase_c1 (fun _ => 0) 0 ("conjunction") ⟨0, 8⟩ 0 0 rfl).2 0
    (by omega)
    (by norm_num [transit_orb, calculate_aspect_orb])
    (by intro j hj; exact absurd hj (Nat.not_lt_zero j))

/-- Claim C3: find_exact_aspect_time returns an absent result (None), not an
error, exactly when every coarse 1-hour sample from start_time through
end_time has orb at least 0.1 degrees. -/
theorem find_exact_aspect_time_notfound_c3 (tl : ℤ → ℚ) (nl : ℚ)
    (aspect_name : String) (ad : AspectData) (s e : ℤ)
    (hname : ASPECTS.lookup aspect_name = some ad) :
    find_exact_aspect_time tl nl aspect_name s e = some none ↔
      ∀ k : ℕ, s + 60 * k ≤ e → 1/10 ≤ transit_orb tl nl ad.angle (s + 60 * k) := by
  have hfx : find_exact_aspect_time tl nl aspect_name s e =
      some (coarse_search tl nl ad.angle e s) := by
    rw [find_exact_aspect_time, hname]
    rfl
  rw [hfx]
  constructor
  · intro h
    have hnone : coarse_search tl nl ad.angle e s = none := Option.some_injective _ h
    have hall := (coarse_search_none_iff tl nl ad.angle e s).mp hnone
    intro k hk
    exact not_lt.mp (hall k hk)
  · intro hall
    have hnone : coarse_search tl nl ad.angle e s = none :=
      (coarse_search_none_iff tl nl ad.angle e s).mpr fun k hk =>
        not_lt.mpr (hall k hk)
    rw [hnone]

/-- Witness for C3 on an empty coarse window (start after end): no coarse
sample exists, so the solver returns the absent result. -/
theorem find_exact_aspect_time_notfound_c3_witness :
    find_exact_aspect_time (fun _ => 0) 0 ("opposition") 1 0 = some none :=
  (find_exact_aspect_time_notfound_c3 (fun _ => 0) 0 ("opposition") ⟨180, 8⟩ 1 0 rfl).mpr
    (by intro k hk; exact absurd hk (by omega))

/-- Claim C10: once the fine phase is triggered at the first coarse trigger
time T = s + 60k, the solver always returns a present timestamp, and among
the 1-minute samples of [T - 1h, T + 1h] attaining the minimum orb the
earliest is returned (the running minimum is replaced only by a strictly
smaller orb). -/
theorem find_exact_aspect_time_fine_c10 (tl : ℤ → ℚ) (nl : ℚ)
    (aspect_name : String) (ad : AspectData) (s e : ℤ) (k : ℕ)
    (hname : ASPECTS.lookup aspect_name = some ad)
    (hk : s + 60 * k ≤ e)
    (htrig : transit_orb tl nl ad.angle (s + 60 * k) < 1/10)
    (hfirst : ∀ j : ℕ, j < k → ¬ (transit_orb tl nl ad.angle (s + 60 * j) < 1/10)) :
    ∃ t : ℤ, find_exact_aspect_time tl nl aspect_name s e = some (some t) ∧
      s + 60 * k - 60 ≤ t ∧ t ≤ s + 60 * k + 60 ∧
      (∀ u : ℤ, s + 60 * k - 60 ≤ u → u ≤ s + 60 * k + 60 →
        transit_orb tl nl ad.angle t ≤ transit_orb tl nl ad.angle u) ∧
      ∀ u : ℤ, s + 60 * k - 60 ≤ u → u ≤ s + 60 * k + 60 →
        transit_orb tl nl ad.angle u = transit_orb tl nl ad.angle t → t ≤ u := by
  have hfx : find_exact_aspect_time tl nl aspect_name s e =
      some (coarse_search tl nl ad.angle e s) := by
    rw [find_exact_aspect_time, hname]
    rfl
  have hco := coarse_search_at_first_trigger tl nl ad.angle e k s hk htrig hfirst
  obtain ⟨rt, ro, h1, h2, h3, h4, h5, h6⟩ :=
    fine_search_from_none tl nl ad.angle (s + 60 * k)
  refine ⟨rt, ?_, h3, h4, ?_, ?_⟩
  · rw [hfx, hco, h1]
    rfl
  · intro u hu1 hu2
    rw [← h2]
    exact h5 u hu1 hu2
  · intro u hu1 hu2 he
    refine h6 u hu1 hu2 ?_
    rw [← h2] at he
    exact he

/-- Witness for C10 at a concrete constant ephemeris: natal longitude 0,
transiting longitude constantly 90, square aspect, window [5, 5]. -/
theorem find_exact_aspect_time_fine_c10_witness :
    ∃ t : ℤ, find_exact_aspect_time (fun _ => 90) 0 ("square") 5 5 = some (some t) ∧
      (5 : ℤ) + 60 * ((0 : ℕ) : ℤ) - 60 ≤ t ∧ t ≤ (5 : ℤ) + 60 * ((0 : ℕ) : ℤ) + 60 ∧
      (∀ u : ℤ, (5 : ℤ) + 60 * ((0 : ℕ) : ℤ) - 60 ≤ u →
        u ≤ (5 : ℤ) + 60 * ((0 : ℕ) : ℤ) + 60 →
        transit_orb (fun _ => 90) 0 (AspectData.mk 90 8).angle t ≤
          transit_orb (fun _ => 90) 0 (AspectData.mk 90 8).angle u) ∧
      ∀ u : ℤ, (5 : ℤ) + 60 * ((0 : ℕ) : ℤ) - 60 ≤ u →
        u ≤ (5 : ℤ) + 60 * ((0 : ℕ) : ℤ) + 60 →
        transit_orb (fun _ => 90) 0 (AspectData.mk 90 8).angle u =
          transit_orb (fun _ => 90) 0 (AspectData.mk 90 8).angle t → t ≤ u :=
  find_exact_aspect_time_fine_c10 (fun _ => 90) 0 ("square") ⟨90, 8⟩ 5 5 0 rfl
    (by omega)
    (by norm_num [transit_orb, calculate_aspect_orb])
    (by intro j hj; exact absurd hj (Nat.not_lt_zero j))

/-- The catalog has no repeated entry. -/
theorem ASPECTS_nodup : ASPECTS.Nodup := by decide

/-- The tolerance intervals of the nine catalog aspects are pairwise
disjoint: no wrapped separation value v can be within tolerance of two
different catalog entries at once. -/
theorem aspects_disjoint (v : ℚ) (e1 e2 : String × AspectData)
    (h1 : e1 ∈ ASPECTS) (h2 : e2 ∈ ASPECTS) (hne : e1 ≠ e2)
    (hv1 : |v - e1.2.angle| ≤ e1.2.orb) (hv2 : |v - e2.2.angle| ≤ e2.2.orb) :
    False := by
  rw [abs_le] at hv1 hv2
  simp only [ASPECTS, List.mem_cons, List.not_mem_nil, or_false] at h1 h2
  rcases h1 with rfl | rfl | rfl | rfl | rfl | rfl | rfl | rfl | rfl <;>
    rcases h2 with rfl | rfl | rfl | rfl | rfl | rfl | rfl | rfl | rfl <;>
    first
      | exact hne rfl
      | (dsimp only at hv1 hv2
         obtain ⟨a1, b1⟩ := hv1
         obtain ⟨a2, b2⟩ := hv2
         linarith)

/-- A filterMap whose function is defined (isSome) on at most one element
of a duplicate-free list keeps at most one element. -/
theorem filterMap_length_le_one {α β : Type} {l : List α} (f : α → Option β)
    (hl : l.Nodup)
    (h : ∀ x ∈ l, ∀ y ∈ l, (f x).isSome → (f y).isSome → x = y) :
    (l.filterMap f).length ≤ 1 := by
  induction l with
  | nil => simp
  | cons x l ih =>
    rw [List.filterMap_cons]
    cases hfx : f x with
    | none =>
      exact ih hl.of_cons fun a ha b hb =>
        h a (List.mem_cons_of_mem x ha) b (List.mem_cons_of_mem x hb)
    | some b =>
      have hrest : l.filterMap f = [] := by
        rw [List.filterMap_eq_nil_iff]
        intro a ha
        cases hfa : f a with
        | none => rfl
        | some c =>
          have hax : a = x :=
            h a (List.mem_cons_of_mem x ha) x (List.mem_cons_self x l)
              (by rw [hfa]; rfl) (by rw [hfx]; rfl)
          rw [hax] at ha
          exact absurd ha (List.nodup_cons.mp hl).1
      rw [hrest]
      simp

/-- A match produced by aspect_entry names exactly the two looped planets. -/
theorem aspect_entry_names (mo : Option ℚ) (p1 : String) (pos1 : PlanetData)
    (p2 : String) (pos2 : PlanetData) (entry : String × AspectData)
    (m : AspectMatch) (h : aspect_entry mo p1 pos1 p2 pos2 entry = some m) :
    m.planet1 = p1 ∧ m.planet2 = p2 := by
  rw [aspect_entry_eq] at h
  by_cases hp : aspect_passes mo pos1 pos2 entry
  · rw [if_pos hp] at h
    obtain rfl := Option.some_injective _ h
    exact ⟨rfl, rfl⟩
  · rw [if_neg hp] at h
    exact absurd h (by simp)

/-- For one fixed pair of positions, at most one catalog aspect can match:
the wrapped separation is a single value and the tolerance intervals are
pairwise disjoint. -/
theorem aspect_block_le_one (mo : Option ℚ) (p1 : String) (pos1 : PlanetData)
    (p2 : String) (pos2 : PlanetData) :
    (ASPECTS.filterMap (aspect_entry mo p1 pos1 p2 pos2)).length ≤ 1 := by
  refine filterMap_length_le_one _ ASPECTS_nodup ?_
  intro x hx y hy hfx hfy
  by_contra hne
  have hcond : ∀ z : String × AspectData,
      (aspect_entry mo p1 pos1 p2 pos2 z).isSome →
      calculate_aspect_orb pos1.longitude pos2.longitude z.2.angle ≤ z.2.orb := by
    intro z hz
    rw [aspect_entry_eq] at hz
    by_cases hp : aspect_passes mo pos1 pos2 z
    · simp only [aspect_passes, Bool.and_eq_true, decide_eq_true_eq] at hp
      exact hp.1
    · rw [if_neg hp] at hz
      exact absurd hz (by simp)
  have hvx : |min |pos1.longitude - pos2.longitude|
      (360 - |pos1.longitude - pos2.longitude|) - x.2.angle| ≤ x.2.orb := hcond x hfx
  have hvy : |min |pos1.longitude - pos2.longitude|
      (360 - |pos1.longitude - pos2.longitude|) - y.2.angle| ≤ y.2.orb := hcond y hfy
  exact aspects_disjoint _ x y hx hy hne hvx hvy

/-- Middle layer of the duplicate-pair count: with duplicate-free keys in
the second set, the matches of one first-set entry that name a given pair
number at most one. -/
theorem row_filter_le_one (mo : Option ℚ) (p1 p2 : String)
    (q1 : String × PlanetData) :
    ∀ b : List (String × PlanetData), (b.map Prod.fst).Nodup →
      ((b.flatMap fun q2 => ASPECTS.filterMap (aspect_entry mo q1.1 q1.2 q2.1 q2.2)).filter
        (fun m => m.planet1 == p1 && m.planet2 == p2)).length ≤ 1 := by
  intro b
  induction b with
  | nil =>
    intro _
    simp
  | cons q2 b ih =>
    intro hnd
    rw [List.map_cons] at hnd
    have hnotmem : q2.1 ∉ b.map Prod.fst := (List.nodup_cons.mp hnd).1
    have hnd' : (b.map Prod.fst).Nodup := (List.nodup_cons.mp hnd).2
    rw [List.flatMap_cons, List.filter_append, List.length_append]
    by_cases hq : q2.1 = p2
    · have hrest : ((b.flatMap fun q2x =>
          ASPECTS.filterMap (aspect_entry mo q1.1 q1.2 q2x.1 q2x.2)).filter
          (fun m => m.planet1 == p1 && m.planet2 == p2)) = [] := by
        rw [List.filter_eq_nil_iff]
        intro m hm
        rw [List.mem_flatMap] at hm
        obtain ⟨q2x, hq2x, hm⟩ := hm
        rw [List.mem_filterMap] at hm
        obtain ⟨entry, _, hae⟩ := hm
        have hnames := aspect_entry_names mo q1.1 q1.2 q2x.1 q2x.2 entry m hae
        simp only [Bool.and_eq_true, beq_iff_eq, not_and]
        intro _ hp2
        rw [hnames.2] at hp2
        have hmem : q2x.1 ∈ b.map Prod.fst := List.mem_map_of_mem Prod.fst hq2x
        rw [hp2, ← hq] at hmem
        exact hnotmem hmem
      rw [hrest]
      simp only [List.length_nil, Nat.add_zero]
      exact le_trans (List.length_filter_le _ _)
        (aspect_block_le_one mo q1.1 q1.2 q2.1 q2.2)
    · have hblock : ((ASPECTS.filterMap (aspect_entry mo q1.1 q1.2 q2.1 q2.2)).filter
          (fun m => m.planet1 == p1 && m.planet2 == p2)) = [] := by
        rw [List.filter_eq_nil_iff]
        intro m hm
        rw [List.mem_filterMap] at hm
        obtain ⟨entry, _, hae⟩ := hm
        have hnames := aspect_entry_names mo q1.1 q1.2 q2.1 q2.2 entry m hae
        simp only [Bool.and_eq_true, beq_iff_eq, not_and]
        intro _ hp2
        rw [hnames.2] at hp2
        exact hq hp2
      rw [hblock]
      simp only [List.length_nil, Nat.zero_add]
      exact ih hnd'

/-- Full duplicate-pair count: with duplicate-free keys on both position
sets (dictionary semantics), a given (body1, body2) pair is named by at
most one match of find_aspects. -/
theorem pair_count_le_one (mo : Option ℚ) (p1 p2 : String)
    (b : List (String × PlanetData)) (hb : (b.map Prod.fst).Nodup) :
    ∀ a : List (String × PlanetData), (a.map Prod.fst).Nodup →
      ((find_aspects a b mo).filter
        (fun m => m.planet1 == p1 && m.planet2 == p2)).length ≤ 1 := by
  intro a
  induction a with
  | nil =>
    intro _
    simp [find_aspects]
  | cons q1 a ih =>
    intro hnd
    rw [List.map_cons] at hnd
    have hnotmem : q1.1 ∉ a.map Prod.fst := (List.nodup_cons.mp hnd).1
    have hnd' : (a.map Prod.fst).Nodup := (List.nodup_cons.mp hnd).2
    rw [find_aspects, List.flatMap_cons, List.filter_append, List.length_append]
    by_cases hq : q1.1 = p1
    · have hrest : ((a.flatMap fun q1x => b.flatMap fun q2 =>
          ASPECTS.filterMap (aspect_entry mo q1x.1 q1x.2 q2.1 q2.2)).filter
          (fun m => m.planet1 == p1 && m.planet2 == p2)) = [] := by
        rw [List.filter_eq_nil_iff]
        intro m hm
        rw [List.mem_flatMap] at hm
        obtain ⟨q1x, hq1x, hm⟩ := hm
        rw [List.mem_flatMap] at hm
        obtain ⟨q2, _, hm⟩ := hm
        rw [List.mem_filterMap] at hm
        obtain ⟨entry, _, hae⟩ := hm
        have hnames := aspect_entry_names mo q1x.1 q1x.2 q2.1 q2.2 entry m hae
        simp only [Bool.and_eq_true, beq_iff_eq, not_and]
        intro hp1 _
        rw [hnames.1] at hp1
        have hmem : q1x.1 ∈ a.map Prod.fst := List.mem_map_of_mem Prod.fst hq1x
        rw [hp1, ← hq] at hmem
        exact hnotmem hmem
      rw [hrest]
      simp only [List.length_nil, Nat.add_zero]
      exact row_filter_le_one mo p1 p2 q1 b hb
    · have hrow : ((b.flatMap fun q2 =>
          ASPECTS.filterMap (aspect_entry mo q1.1 q1.2 q2.1 q2.2)).filter
          (fun m => m.planet1 == p1 && m.planet2 == p2)) = [] := by
        rw [List.filter_eq_nil_iff]
        intro m hm
        rw [List.mem_flatMap] at hm
        obtain ⟨q2, _, hm⟩ := hm
        rw [List.mem_filterMap] at hm
        obtain ⟨entry, _, hae⟩ := hm
        have hnames := aspect_entry_names mo q1.1 q1.2 q2.1 q2.2 entry m hae
        simp only [Bool.and_eq_true, beq_iff_eq, not_and]
        intro hp1 _
        rw [hnames.1] at hp1
        exact hq hp1
      rw [hrow]
      simp only [List.length_nil, Nat.zero_add]
      exact ih hnd'

/-- Claim C4 counterexample: the existential of the claim is false.  There are no
position sets (with dictionary-unique body names) for which find_aspects
names the same (body1, body2) pair in two or more aspect matches: the
wrapped separation of one pair is a single value and the tolerance
intervals of the catalog are pairwise disjoint. -/
theorem find_aspects_no_duplicate_pair_c4_counterexample :
    ¬ ∃ (a b : List (String × PlanetData)) (mo : Option ℚ) (p1 p2 : String),
      (a.map Prod.fst).Nodup ∧ (b.map Prod.fst).Nodup ∧
      2 ≤ ((find_aspects a b mo).filter
        (fun m => m.planet1 == p1 && m.planet2 == p2)).length := by
  rintro ⟨a, b, mo, p1, p2, ha, hb, hlen⟩
  have hle := pair_count_le_one mo p1 p2 b hb a ha
  omega

/-- Claim C4 amended: find_aspects applies no deduplication, but with this
catalog no deduplication is ever needed: for every pair of position sets
with dictionary-unique body names, each (body1, body2) pair appears in at
most one aspect match, because the tolerance intervals of the
catalog are pairwise disjoint. -/
theorem find_aspects_pair_at_most_once_c4 (a b : List (String × PlanetData))
    (mo : Option ℚ) (p1 p2 : String)
    (ha : (a.map Prod.fst).Nodup) (hb : (b.map Prod.fst).Nodup) :
    ((find_aspects a b mo).filter
      (fun m => m.planet1 == p1 && m.planet2 == p2)).length ≤ 1 :=
  pair_count_le_one mo p1 p2 b hb a ha

/-- Witness for the amended C4 theorem on concrete singleton position sets
(natal Sun at longitude 10, transiting Moon at 190). -/
theorem find_aspects_pair_at_most_once_c4_witness :
    ((find_aspects [(("Sun"), ⟨10, 1⟩)] [(("Moon"), ⟨190, 1⟩)] none).filter
      (fun m => m.planet1 == ("Sun") && m.planet2 == ("Moon"))).length ≤ 1 :=
  find_aspects_pair_at_most_once_c4 [(("Sun"), ⟨10, 1⟩)] [(("Moon"), ⟨190, 1⟩)]
    none ("Sun") ("Moon") (by decide) (by decide)

/-- Witness for C2 on concrete singleton position sets. -/
theorem find_aspects_c2_witness :
    find_aspects [(("Sun"), ⟨10, 1⟩)] [(("Sun"), ⟨190, -1⟩)] none =
      find_aspects_spec [(("Sun"), ⟨10, 1⟩)] [(("Sun"), ⟨190, -1⟩)] none :=
  (find_aspects_c2 [(("Sun"), ⟨10, 1⟩)] [(("Sun"), ⟨190, -1⟩)] none).1

/-- Witness for C7 at a concrete datetime and offset. -/
theorem compute_julian_day_formula_c7_witness :
    compute_julian_day (fun _ _ _ _ => 7) ⟨1990, 1, 1, 12, 0, 0, 0⟩ (-5) =
      (fun _ _ _ _ => (7 : ℚ)) 1990 1 1 (((12 : ℤ) : ℚ) - (-5) + ((0 : ℤ) : ℚ) / 60) :=
  (compute_julian_day_formula_c7 (fun _ _ _ _ => 7) ⟨1990, 1, 1, 12, 0, 0, 0⟩ (-5)).1

/-- Witness for C8 on the concrete 3-entry batch of the claim. -/
theorem calculate_houses_for_positions_c8_witness :
    calculate_houses_for_positions (fun jd => ⟨jd, [], []⟩)
        [(("A"), ⟨some 1⟩), (("B"), ⟨none⟩), (("C"), ⟨some 2⟩)] =
      ([(("A"), ⟨1, [], []⟩), (("C"), ⟨2, [], []⟩)], [("B")]) :=
  (calculate_houses_for_positions_c8 (fun jd => ⟨jd, [], []⟩)).2 ("A") ("B") ("C") 1 2

/-- Witness for C9 at concrete angles. -/
theorem calculate_aspect_orb_symm_c9_witness :
    calculate_aspect_orb 10 190 180 = calculate_aspect_orb 190 10 180 :=
  calculate_aspect_orb_symm_c9 10 190 180
